import Mathlib

/-!
A shallow embedding of `server.js` of stock-backend.

The development follows `src/server.js` handler by handler.

Modelling conventions.

* A JavaScript number is a `JsNum`: an exact rational, `Infinity`, `-Infinity` or `NaN`.
  Rounding of IEEE doubles and the sign of zero are not modelled.
* The `units` field of a request body is a `Units`: a JSON number, or a JSON string
  holding a decimal numeral (what a form field sends, and what the calls to `parseInt`
  in the handlers are there for).  The handlers read it raw in `price * units`,
  `oldUnits + units` and `held < units`, and through `parseInt` for the entry.
* The Account Store is the list of user documents, in insertion order.
  `User.findOne` returns the first match and `save` writes the document back in place.
  Requests are served one after the other.
* `save` validates what the handler assigned: a `Number` path assigned `NaN` and a
  `required` string left empty make it throw, and nothing is written.
* `bcrypt` and `jsonwebtoken` are parameters (`Crypto`).
* `Math.random()` is a parameter: one draw per stock and per round.
-/

namespace StockBackend

/-! ## Numbers -/

/-- A JavaScript number up to rounding. -/
inductive JsNum where
  | fin (q : ℚ)
  | posInf
  | negInf
  | nan
  deriving DecidableEq

namespace JsNum

/-- The value of `a / 0` and of `a * Infinity` for a finite `a`. -/
def signed (a : ℚ) : JsNum :=
  if a = 0 then nan else if 0 < a then posInf else negInf

/-- JavaScript `a + b` on numbers. -/
def add : JsNum → JsNum → JsNum
  | fin a, fin b => fin (a + b)
  | nan, _ => nan
  | _, nan => nan
  | posInf, negInf => nan
  | negInf, posInf => nan
  | posInf, _ => posInf
  | _, posInf => posInf
  | negInf, _ => negInf
  | _, negInf => negInf

/-- JavaScript `a - b` on numbers. -/
def sub : JsNum → JsNum → JsNum
  | fin a, fin b => fin (a - b)
  | nan, _ => nan
  | _, nan => nan
  | posInf, posInf => nan
  | negInf, negInf => nan
  | posInf, _ => posInf
  | _, negInf => posInf
  | negInf, _ => negInf
  | _, posInf => negInf

/-- JavaScript `a * b` on numbers. -/
def mul : JsNum → JsNum → JsNum
  | fin a, fin b => fin (a * b)
  | nan, _ => nan
  | _, nan => nan
  | fin a, posInf => signed a
  | fin a, negInf => signed (-a)
  | posInf, fin b => signed b
  | negInf, fin b => signed (-b)
  | posInf, posInf => posInf
  | negInf, negInf => posInf
  | posInf, negInf => negInf
  | negInf, posInf => negInf

/-- JavaScript `a / b` on numbers. -/
def div : JsNum → JsNum → JsNum
  | fin a, fin b => if b = 0 then signed a else fin (a / b)
  | nan, _ => nan
  | _, nan => nan
  | fin _, posInf => fin 0
  | fin _, negInf => fin 0
  | posInf, fin b => if b < 0 then negInf else posInf
  | negInf, fin b => if b < 0 then posInf else negInf
  | posInf, posInf => nan
  | posInf, negInf => nan
  | negInf, posInf => nan
  | negInf, negInf => nan

end JsNum

/-- Number of characters of the decimal numeral of `n`. -/
def numeralLength (n : Nat) : Nat := (Nat.toDigits 10 n).length

/-- First digit of the decimal numeral of `m`. -/
def leadingDigit (m : Nat) : Nat := m / 10 ^ (numeralLength m - 1)

/-- First significant digit of `x` for `0 < x < 1`: `x` is multiplied by 10 until it
reaches 1.  `fuel` bounds the number of steps. -/
def leadingSmall : Nat → ℚ → Int
  | 0, _ => 0
  | fuel + 1, x => if 1 ≤ x then ⌊x⌋ else leadingSmall fuel (10 * x)

/-- JavaScript `parseInt(q)` on a number: the number is printed, and the integer at the
head of the text is read.  From 1e-6 up to 1e21 the text is plain decimal and the result
is `q` truncated toward zero; outside, the text is in exponent form, `d.ddde-7` or
`d.ddde+21`, and the result is the first significant digit. -/
def parseIntNumber (q : ℚ) : Int :=
  if q = 0 then 0
  else if |q| < 1 / 1000000 then
    (if q < 0 then -leadingSmall ⌈|q|⁻¹⌉₊ |q| else leadingSmall ⌈|q|⁻¹⌉₊ |q|)
  else if |q| < 10 ^ 21 then (if q < 0 then -⌊-q⌋ else ⌊q⌋)
  else (if q < 0 then -(leadingDigit ⌊|q|⌋₊ : Int) else (leadingDigit ⌊|q|⌋₊ : Int))

/-- The `units` field of a request body: a JSON number, or a JSON string that is the
decimal numeral of a natural number. -/
inductive Units where
  | num (q : ℚ)
  | str (n : Nat)
  deriving DecidableEq

namespace Units

/-- The numeric value JavaScript gives raw `units` in `price * units` and in
`held < units`. -/
def toNumber : Units → ℚ
  | num q => q
  | str n => (n : ℚ)

/-- JavaScript `parseInt(units)`. -/
def parseInt : Units → Int
  | num q => parseIntNumber q
  | str n => (n : Int)

end Units

/-- The numeric value of the JavaScript expression `oldUnits + units` where it is used as a
divisor.  On a number `+` adds.  On a string `+` concatenates the decimal numeral of
`oldUnits` with the string, and the division then reads the result back as a number. -/
def plusAsNumber (oldUnits : Int) : Units → ℚ
  | .num q => (oldUnits : ℚ) + q
  | .str n =>
    if oldUnits < 0 then -((oldUnits.natAbs * 10 ^ numeralLength n + n : Nat) : ℚ)
    else ((oldUnits.natAbs * 10 ^ numeralLength n + n : Nat) : ℚ)

/-! ## Data model (`userSchema`) -/

/-- An entry of `portfolio`. -/
structure Position where
  ticker : String
  units : Int
  avgCost : JsNum
  deriving DecidableEq

/-- A `User` document. -/
structure User where
  name : String
  email : String
  password : String
  balance : JsNum
  portfolio : List Position
  deriving DecidableEq

/-- The Account Store: the `User` collection. -/
abbrev Store := List User

/-- `User.findOne` by email: the first document with that email, if any. -/
def findOne (store : Store) (email : String) : Option User :=
  store.find? (fun u => decide (u.email = email))

/-- The write of `user.save()` for a document obtained from `findOne`: the document is
written back in place.  No handler changes the email of a document it loaded. -/
def save : Store → User → Store
  | [], _ => []
  | u :: rest, user => if u.email = user.email then user :: rest else u :: save rest user

/-- The validation of `user.save()`: the paths among those the handler assigned whose
`Number` value is `NaN`.  Mongoose refuses to cast `NaN`; the infinities pass. -/
def invalidPaths (assigned : List (String × JsNum)) : List String :=
  (assigned.filter (fun a => decide (a.2 = JsNum.nan))).map (fun a => a.1)

/-- `Array.prototype.findIndex`; `none` stands for `-1`. -/
def findIndex {α : Type} (p : α → Bool) : List α → Option Nat
  | [] => none
  | x :: xs => if p x then some 0 else (findIndex p xs).map (· + 1)

/-! ## Price feed -/

/-- Value of `currentPrices`: the number each stored price string denotes. -/
abbrev PriceMap := String → Option ℚ

/-- The fixed ticker list. -/
def STOCKS : List String := ["GOOG", "TSLA", "AMZN", "META", "NVDA"]

/-- The number denoted by `x.toFixed(2)`: the nearest multiple of 1/100, the larger one
on a tie (taken on the absolute value, the sign put back). -/
def toFixed2 (x : ℚ) : ℚ :=
  if x < 0 then -((⌊(-x) * 100 + 1 / 2⌋ : Int) : ℚ) / 100
  else ((⌊x * 100 + 1 / 2⌋ : Int) : ℚ) / 100

/-- The raw seed `Math.random() * 500 + 100` for a draw `r`. -/
def seed (r : ℚ) : ℚ := r * 500 + 100

/-- The initial `currentPrices`, `draw s` being the value of `Math.random()` for stock `s`. -/
def initPrices (draw : String → ℚ) : PriceMap :=
  fun s => if s ∈ STOCKS then some (toFixed2 (seed (draw s))) else none

/-- The new price of one stock in one round of the interval callback. -/
def stepPrice (r : ℚ) (old : ℚ) : ℚ :=
  let change := r * 4 - 2
  let newPrice := old + change
  toFixed2 (if newPrice < 10 then 10 else newPrice)

/-- One round of the interval callback on `currentPrices`. -/
def tick (draw : String → ℚ) (prices : PriceMap) : PriceMap :=
  fun s => if s ∈ STOCKS then (prices s).map (stepPrice (draw s)) else prices s

/-- Any number of rounds, one family of draws per round. -/
def ticks (prices : PriceMap) (draws : List (String → ℚ)) : PriceMap :=
  draws.foldl (fun p d => tick d p) prices

/-- A value of `currentPrices` at the time a request is served.  Its keys are the
tickers of `STOCKS`: all are set at start-up, and a round reassigns these and no other. -/
structure Prices where
  map : PriceMap
  keys : ∀ s, (map s).isSome = true ↔ s ∈ STOCKS

/-- `parseFloat(currentPrices[ticker])`: `NaN` for a ticker the feed does not have. -/
def priceOf (prices : Prices) (ticker : String) : JsNum :=
  match prices.map ticker with
  | some p => .fin p
  | none => .nan

/-! ## Trading engine -/

/-- The expression `newAvg` of the `/buy` handler for the entry found. -/
def buyAverage (price : JsNum) (units : Units) (pos : Position) : JsNum :=
  let cost := price.mul (.fin units.toNumber)
  let oldUnits := pos.units
  let oldCost := pos.avgCost
  (((JsNum.fin oldUnits).mul oldCost).add cost).div (.fin (plusAsNumber oldUnits units))

/-- The body of the `/buy` handler between `findOne` and `save`: the mutation of the
loaded document. -/
def buyUser (price : JsNum) (ticker : String) (units : Units) (user : User) : User :=
  let cost := price.mul (.fin units.toNumber)
  let portfolio :=
    match findIndex (fun p => decide (p.ticker = ticker)) user.portfolio with
    | some stockIndex =>
      match user.portfolio[stockIndex]? with
      | some pos =>
        let newAvg := buyAverage price units pos
        user.portfolio.set stockIndex
          { pos with units := pos.units + units.parseInt, avgCost := newAvg }
      | none => user.portfolio
    | none => user.portfolio ++ [{ ticker := ticker, units := units.parseInt, avgCost := price }]
  { user with portfolio := portfolio, balance := user.balance.sub cost }

/-- The `Number` values the `/buy` handler assigned, with their paths: the `avgCost` of
the entry it rewrote or pushed, and the balance. -/
def buyAssigned (price : JsNum) (ticker : String) (units : Units) (user : User) :
    List (String × JsNum) :=
  let cost := price.mul (.fin units.toNumber)
  let avgCost :=
    match findIndex (fun p => decide (p.ticker = ticker)) user.portfolio with
    | some stockIndex =>
      match user.portfolio[stockIndex]? with
      | some pos => [("avgCost", buyAverage price units pos)]
      | none => []
    | none => [("avgCost", price)]
  avgCost ++ [("balance", user.balance.sub cost)]

/-- The body of the `/sell` handler between `findOne` and `save`; `none` is the early
return with "Not enough units to sell". -/
def sellUser (price : JsNum) (ticker : String) (units : Units) (user : User) : Option User :=
  let revenue := price.mul (.fin units.toNumber)
  match findIndex (fun p => decide (p.ticker = ticker)) user.portfolio with
  | none => none
  | some stockIndex =>
    match user.portfolio[stockIndex]? with
    | none => none
    | some pos =>
      if (pos.units : ℚ) < units.toNumber then none
      else
        let left := pos.units - units.parseInt
        let portfolio :=
          if left = 0 then user.portfolio.eraseIdx stockIndex
          else user.portfolio.set stockIndex { pos with units := left }
        some { user with portfolio := portfolio, balance := user.balance.add revenue }

/-- The `Number` value a `/sell` that goes through assigned beside the units: the
balance. -/
def sellAssigned (price : JsNum) (units : Units) (user : User) : List (String × JsNum) :=
  [("balance", user.balance.add (price.mul (.fin units.toNumber)))]

/-! ## Request layer -/

/-- An exception that reaches a handler's `catch`; its message is the raw error text. -/
inductive Thrown where
  | nullProperty (property : String)
  | validation (paths : List String)
  deriving DecidableEq

/-- A response body. -/
inductive Body where
  | message (text : String)
  | error (text : String)
  | raw (e : Thrown)
  | user (u : User)
  | session (token : String) (name email : String) (portfolio : List Position) (balance : JsNum)
  | null
  deriving DecidableEq

/-- A response: status code and JSON body. -/
structure Response where
  status : Nat
  body : Body
  deriving DecidableEq

/-- The external libraries `bcryptjs` and `jsonwebtoken`. -/
structure Crypto where
  hash : String → String
  compare : String → String → Bool
  sign : User → String

/-- `POST /register`.  `required: true` of the schema rejects an empty string on save. -/
def register (c : Crypto) (store : Store) (name email password : String) : Response × Store :=
  match findOne store email with
  | some _ => (⟨400, .error "User already exists"⟩, store)
  | none =>
    let newUser : User :=
      { name := name, email := email, password := c.hash password,
        balance := .fin 10000, portfolio := [] }
    if newUser.email = "" then (⟨500, .raw (.validation ["email"])⟩, store)
    else if newUser.password = "" then (⟨500, .raw (.validation ["password"])⟩, store)
    else (⟨200, .message "Registration successful"⟩, store ++ [newUser])

/-- `POST /login`. -/
def login (c : Crypto) (store : Store) (email password : String) : Response × Store :=
  match findOne store email with
  | none => (⟨400, .error "User not found"⟩, store)
  | some user =>
    if c.compare password user.password then
      (⟨200, .session (c.sign user) user.name user.email user.portfolio user.balance⟩, store)
    else (⟨400, .error "Invalid credentials"⟩, store)

/-- `GET /user/:email`. -/
def getUser (store : Store) (email : String) : Response × Store :=
  match findOne store email with
  | none => (⟨200, .null⟩, store)
  | some user => (⟨200, .user user⟩, store)

/-- `POST /buy`.  With no document found, `user.portfolio` throws and the `catch` answers;
so it does when `save` refuses the document. -/
def buy (prices : Prices) (store : Store) (email ticker : String) (units : Units) :
    Response × Store :=
  match findOne store email with
  | none => (⟨500, .raw (.nullProperty "portfolio")⟩, store)
  | some user =>
    let user1 := buyUser (priceOf prices ticker) ticker units user
    match invalidPaths (buyAssigned (priceOf prices ticker) ticker units user) with
    | [] => (⟨200, .user user1⟩, save store user1)
    | path :: paths => (⟨500, .raw (.validation (path :: paths))⟩, store)

/-- `POST /sell`.  With no document found, `user.portfolio` throws and the `catch` answers;
so it does when `save` refuses the document. -/
def sell (prices : Prices) (store : Store) (email ticker : String) (units : Units) :
    Response × Store :=
  match findOne store email with
  | none => (⟨500, .raw (.nullProperty "portfolio")⟩, store)
  | some user =>
    match sellUser (priceOf prices ticker) ticker units user with
    | none => (⟨400, .error "Not enough units to sell"⟩, store)
    | some user1 =>
      match invalidPaths (sellAssigned (priceOf prices ticker) units user) with
      | [] => (⟨200, .user user1⟩, save store user1)
      | path :: paths => (⟨500, .raw (.validation (path :: paths))⟩, store)

/-- A request to one of the five endpoints. -/
inductive Request where
  | register (name email password : String)
  | login (email password : String)
  | getUser (email : String)
  | buy (email ticker : String) (units : Units)
  | sell (email ticker : String) (units : Units)

/-- Dispatch of a request on the value `currentPrices` has when it is served. -/
def handle (c : Crypto) (prices : Prices) (store : Store) : Request → Response × Store
  | .register name email password => register c store name email password
  | .login email password => login c store email password
  | .getUser email => getUser store email
  | .buy email ticker units => buy prices store email ticker units
  | .sell email ticker units => sell prices store email ticker units

/-- The store after a sequence of requests, each served on its own price snapshot. -/
def run (c : Crypto) (store : Store) (reqs : List (Prices × Request)) : Store :=
  reqs.foldl (fun s pr => (handle c pr.1 s pr.2).2) store

/-- A trade request as one user sees it: the price read from the feed (`NaN` for a
ticker the feed does not have), ticker, units. -/
inductive Trade where
  | buy (price : JsNum) (ticker : String) (units : Units)
  | sell (price : JsNum) (ticker : String) (units : Units)

/-- The effect of one trade on the stored document of a user: a rejected sell and a
refused save change nothing. -/
def applyTrade (user : User) : Trade → User
  | .buy price ticker units =>
    match invalidPaths (buyAssigned price ticker units user) with
    | [] => buyUser price ticker units user
    | _ :: _ => user
  | .sell price ticker units =>
    match sellUser price ticker units user with
    | none => user
    | some user1 =>
      match invalidPaths (sellAssigned price units user) with
      | [] => user1
      | _ :: _ => user

/-- The effect of a sequence of trades on the stored document of a user. -/
def applyTrades (user : User) (trades : List Trade) : User :=
  trades.foldl applyTrade user

/-- The user's Position in a ticker: the entry the handlers find. -/
def holding (user : User) (ticker : String) : Option Position :=
  user.portfolio.find? (fun p => decide (p.ticker = ticker))

/-- Tickers of a user's portfolio, in order. -/
def tickers (user : User) : List String := user.portfolio.map Position.ticker

/-- At most one Position per ticker. -/
def OnePerTicker (user : User) : Prop := (tickers user).Nodup

/-- No Position whose units equal 0. -/
def NoZeroUnits (user : User) : Prop := ∀ p ∈ user.portfolio, p.units ≠ 0

/-- Every Buy of the sequence carries units whose `parseInt` is positive. -/
def BuysPositive (trades : List Trade) : Prop :=
  ∀ t ∈ trades, ∀ price ticker units, t = Trade.buy price ticker units → 0 < units.parseInt

/-- Every Sell of the sequence carries units whose `parseInt` does not exceed them. -/
def SellsWithinRequest (trades : List Trade) : Prop :=
  ∀ t ∈ trades, ∀ price ticker units, t = Trade.sell price ticker units →
    (units.parseInt : ℚ) ≤ units.toNumber

/-- Emails of the documents of the store, in order. -/
def emails (store : Store) : List String := store.map User.email

/-- What holds of every document the endpoints have stored. -/
def Stored (user : User) : Prop :=
  (tickers user).Nodup ∧ user.balance ≠ JsNum.nan ∧ ∀ p ∈ user.portfolio, p.ticker ∈ STOCKS

/-! ## Sample data -/

/-- A stand-in for the external libraries. -/
def sampleCrypto : Crypto := ⟨fun _ => "hashed", fun _ _ => true, fun u => u.email⟩

/-- A feed value in which every ticker costs 150. -/
def samplePrices : Prices :=
  ⟨fun s => if s ∈ STOCKS then some 150 else none,
    fun s => by by_cases h : s ∈ STOCKS <;> simp [h]⟩

/-- A feed value in which every ticker costs 151. -/
def laterPrices : Prices :=
  ⟨fun s => if s ∈ STOCKS then some 151 else none,
    fun s => by by_cases h : s ∈ STOCKS <;> simp [h]⟩

/-- Ann registers and buys 3 units of GOOG. -/
def sampleRequests : List (Prices × Request) :=
  [(samplePrices, .register "Ann" "ann@x.org" "pw"),
   (samplePrices, .buy "ann@x.org" "GOOG" (.num 3))]

/-- Ann after `sampleRequests`. -/
def sampleUser : User :=
  ⟨"Ann", "ann@x.org", "hashed", .fin 9550, [⟨"GOOG", 3, .fin 150⟩]⟩

/-- Ann registers and buys 9e20 units of GOOG twice. -/
def bulkRequests : List (Prices × Request) :=
  [(samplePrices, .register "Ann" "ann@x.org" "pw"),
   (samplePrices, .buy "ann@x.org" "GOOG" (.num 900000000000000000000)),
   (samplePrices, .buy "ann@x.org" "GOOG" (.num 900000000000000000000))]

/-- Ann after `bulkRequests`: she holds 1.8e21 units. -/
def bulkUser : User :=
  ⟨"Ann", "ann@x.org", "hashed", .fin (-269999999999999999990000),
    [⟨"GOOG", 1800000000000000000000, .fin 150⟩]⟩

/-- Every initial draw of `Math.random()` is 1/2. -/
def sampleDraw : String → ℚ := fun _ => 1 / 2

/-- Every draw of a round is 0: each price moves by -2. -/
def fallingDraw : String → ℚ := fun _ => 0

/-! ## Lists: `findIndex` -/

theorem findIndex_eq_none {α : Type} (p : α → Bool) (l : List α) :
    findIndex p l = none ↔ ∀ x ∈ l, p x = false := by
  induction l with
  | nil => simp [findIndex]
  | cons a l ih =>
    by_cases h : p a = true
    · simp [findIndex, h]
    · simp [findIndex, h, ih]

theorem findIndex_append_cons {α : Type} (p : α → Bool) (pre : List α) (x : α) (post : List α)
    (hpre : ∀ y ∈ pre, p y = false) (hx : p x = true) :
    findIndex p (pre ++ x :: post) = some pre.length := by
  induction pre with
  | nil => simp [findIndex, hx]
  | cons a pre ih =>
    have ha : p a = false := hpre a (by simp)
    have := ih (fun y hy => hpre y (by simp [hy]))
    simp [findIndex, ha, this]

theorem findIndex_eq_some {α : Type} (p : α → Bool) (l : List α) (i : Nat)
    (h : findIndex p l = some i) :
    ∃ pre x post, l = pre ++ x :: post ∧ pre.length = i ∧ p x = true ∧
      ∀ y ∈ pre, p y = false := by
  induction l generalizing i with
  | nil => simp [findIndex] at h
  | cons a l ih =>
    by_cases ha : p a = true
    · simp [findIndex, ha] at h
      exact ⟨[], a, l, by simp, by simpa using h, ha, by simp⟩
    · simp [findIndex, ha] at h
      obtain ⟨j, hj, rfl⟩ := h
      obtain ⟨pre, x, post, hl, hlen, hx, hpre⟩ := ih j hj
      refine ⟨a :: pre, x, post, by simp [hl], by simp [hlen], hx, ?_⟩
      intro y hy
      rcases List.mem_cons.mp hy with rfl | hy
      · simpa using ha
      · exact hpre y hy

theorem find?_append_cons {α : Type} (p : α → Bool) (pre : List α) (x : α) (post : List α)
    (hpre : ∀ y ∈ pre, p y = false) (hx : p x = true) :
    (pre ++ x :: post).find? p = some x := by
  induction pre with
  | nil => simp [hx]
  | cons a pre ih =>
    have ha : p a = false := hpre a (by simp)
    have := ih (fun y hy => hpre y (by simp [hy]))
    simp [List.find?, ha, this]

theorem find?_eq_some_split {α : Type} (p : α → Bool) (l : List α) (x : α)
    (h : l.find? p = some x) :
    ∃ pre post, l = pre ++ x :: post ∧ p x = true ∧ ∀ y ∈ pre, p y = false := by
  induction l with
  | nil => simp at h
  | cons a l ih =>
    by_cases ha : p a = true
    · simp [List.find?, ha] at h
      subst h
      exact ⟨[], l, by simp, ha, by simp⟩
    · simp [List.find?, ha] at h
      obtain ⟨pre, post, hl, hx, hpre⟩ := ih h
      refine ⟨a :: pre, post, by simp [hl], hx, ?_⟩
      intro y hy
      rcases List.mem_cons.mp hy with rfl | hy
      · simpa using ha
      · exact hpre y hy

/-- Shape of a portfolio around the entry the handlers find. -/
theorem holding_split (user : User) (ticker : String) (pos : Position)
    (h : holding user ticker = some pos) :
    ∃ pre post, user.portfolio = pre ++ pos :: post ∧ pos.ticker = ticker ∧
      ∀ y ∈ pre, y.ticker ≠ ticker := by
  unfold holding at h
  obtain ⟨pre, post, hl, hx, hpre⟩ := find?_eq_some_split _ _ _ h
  exact ⟨pre, post, hl, by simpa using hx, fun y hy => by simpa using hpre y hy⟩

theorem holding_eq_none (user : User) (ticker : String) :
    holding user ticker = none ↔ ∀ y ∈ user.portfolio, y.ticker ≠ ticker := by
  simp [holding]

/-! ## The trading engine on a portfolio of known shape -/

theorem getElem?_split {α : Type} (pre : List α) (x : α) (post : List α) :
    (pre ++ x :: post)[pre.length]? = some x := by
  induction pre with
  | nil => simp
  | cons a pre ih => simpa using ih

theorem set_split {α : Type} (pre : List α) (x y : α) (post : List α) :
    (pre ++ x :: post).set pre.length y = pre ++ y :: post := by
  simp

theorem eraseIdx_split {α : Type} (pre : List α) (x : α) (post : List α) :
    (pre ++ x :: post).eraseIdx pre.length = pre ++ post := by
  induction pre with
  | nil => simp
  | cons a pre ih => simpa using ih

theorem findIndex_split (ticker : String) (pre : List Position) (pos : Position)
    (post : List Position) (ht : pos.ticker = ticker) (hpre : ∀ y ∈ pre, y.ticker ≠ ticker) :
    findIndex (fun p => decide (p.ticker = ticker)) (pre ++ pos :: post) = some pre.length :=
  findIndex_append_cons _ pre pos post (fun y hy => by simpa using hpre y hy) (by simpa using ht)

theorem findIndex_not_held (ticker : String) (portfolio : List Position)
    (h : ∀ y ∈ portfolio, y.ticker ≠ ticker) :
    findIndex (fun p => decide (p.ticker = ticker)) portfolio = none :=
  (findIndex_eq_none _ _).mpr (fun y hy => by simpa using h y hy)

/-- Buy of a ticker the user holds: the found entry is rewritten in place. -/
theorem buyUser_held (price : JsNum) (ticker : String) (units : Units) (user : User)
    (pre : List Position) (pos : Position) (post : List Position)
    (hl : user.portfolio = pre ++ pos :: post) (ht : pos.ticker = ticker)
    (hpre : ∀ y ∈ pre, y.ticker ≠ ticker) :
    buyUser price ticker units user =
      { user with
        portfolio := pre ++
          { pos with
            units := pos.units + units.parseInt,
            avgCost := buyAverage price units pos }
          :: post,
        balance := user.balance.sub (price.mul (.fin units.toNumber)) } := by
  simp only [buyUser, hl, findIndex_split ticker pre pos post ht hpre, getElem?_split, set_split]

/-- Buy of a ticker the user does not hold: a new entry is pushed. -/
theorem buyUser_new (price : JsNum) (ticker : String) (units : Units) (user : User)
    (h : ∀ y ∈ user.portfolio, y.ticker ≠ ticker) :
    buyUser price ticker units user =
      { user with
        portfolio := user.portfolio ++
          [{ ticker := ticker, units := units.parseInt, avgCost := price }],
        balance := user.balance.sub (price.mul (.fin units.toNumber)) } := by
  simp only [buyUser, findIndex_not_held ticker _ h]

theorem buyAssigned_held (price : JsNum) (ticker : String) (units : Units) (user : User)
    (pre : List Position) (pos : Position) (post : List Position)
    (hl : user.portfolio = pre ++ pos :: post) (ht : pos.ticker = ticker)
    (hpre : ∀ y ∈ pre, y.ticker ≠ ticker) :
    buyAssigned price ticker units user =
      [("avgCost", buyAverage price units pos),
       ("balance", user.balance.sub (price.mul (.fin units.toNumber)))] := by
  simp only [buyAssigned, hl, findIndex_split ticker pre pos post ht hpre, getElem?_split,
    List.singleton_append]

theorem buyAssigned_new (price : JsNum) (ticker : String) (units : Units) (user : User)
    (h : ∀ y ∈ user.portfolio, y.ticker ≠ ticker) :
    buyAssigned price ticker units user =
      [("avgCost", price),
       ("balance", user.balance.sub (price.mul (.fin units.toNumber)))] := by
  simp only [buyAssigned, findIndex_not_held ticker _ h, List.singleton_append]

/-- Sell of a ticker the user does not hold is rejected. -/
theorem sellUser_not_held (price : JsNum) (ticker : String) (units : Units) (user : User)
    (h : ∀ y ∈ user.portfolio, y.ticker ≠ ticker) :
    sellUser price ticker units user = none := by
  simp only [sellUser, findIndex_not_held ticker _ h]

/-- Sell of a ticker the user holds. -/
theorem sellUser_held (price : JsNum) (ticker : String) (units : Units) (user : User)
    (pre : List Position) (pos : Position) (post : List Position)
    (hl : user.portfolio = pre ++ pos :: post) (ht : pos.ticker = ticker)
    (hpre : ∀ y ∈ pre, y.ticker ≠ ticker) :
    sellUser price ticker units user =
      if (pos.units : ℚ) < units.toNumber then none
      else some
        { user with
          portfolio :=
            if pos.units - units.parseInt = 0 then pre ++ post
            else pre ++ { pos with units := pos.units - units.parseInt } :: post,
          balance := user.balance.add (price.mul (.fin units.toNumber)) } := by
  simp only [sellUser, hl, findIndex_split ticker pre pos post ht hpre, getElem?_split,
    set_split, eraseIdx_split]

theorem invalidPaths_nil_iff (assigned : List (String × JsNum)) :
    invalidPaths assigned = [] ↔ ∀ a ∈ assigned, a.2 ≠ JsNum.nan := by
  simp [invalidPaths, List.filter_eq_nil_iff]

/-! ## Numbers -/

theorem add_fin_ne_nan (a : JsNum) (q : ℚ) (h : a ≠ JsNum.nan) :
    a.add (.fin q) ≠ JsNum.nan := by
  cases a <;> simp [JsNum.add] at h ⊢

theorem sub_fin_ne_nan (a : JsNum) (q : ℚ) (h : a ≠ JsNum.nan) :
    a.sub (.fin q) ≠ JsNum.nan := by
  cases a <;> simp [JsNum.sub] at h ⊢

theorem sub_ne_nan_left (a b : JsNum) (h : a.sub b ≠ JsNum.nan) : a ≠ JsNum.nan := by
  intro ha
  subst ha
  cases b <;> simp [JsNum.sub] at h

theorem add_ne_nan_left (a b : JsNum) (h : a.add b ≠ JsNum.nan) : a ≠ JsNum.nan := by
  intro ha
  subst ha
  cases b <;> simp [JsNum.add] at h

theorem priceOf_ne_nan (prices : Prices) (ticker : String)
    (h : priceOf prices ticker ≠ JsNum.nan) : ticker ∈ STOCKS := by
  unfold priceOf at h
  cases hm : prices.map ticker with
  | none => simp [hm] at h
  | some p => exact (prices.keys ticker).mp (by simp [hm])

theorem priceOf_mem (prices : Prices) (ticker : String) (h : ticker ∈ STOCKS) :
    ∃ P, prices.map ticker = some P ∧ priceOf prices ticker = .fin P := by
  have := (prices.keys ticker).mpr h
  cases hm : prices.map ticker with
  | none => simp [hm] at this
  | some p => exact ⟨p, rfl, by simp [priceOf, hm]⟩

theorem parseIntNumber_intCast (k : Int) (h1 : 0 < k) (h2 : k < 10 ^ 21) :
    parseIntNumber (k : ℚ) = k := by
  have hk : (0 : ℚ) < (k : ℚ) := by exact_mod_cast h1
  have hone : (1 : ℚ) ≤ (k : ℚ) := by exact_mod_cast h1
  have habs : |(k : ℚ)| = (k : ℚ) := abs_of_pos hk
  have hlt : (k : ℚ) < 10 ^ 21 := by exact_mod_cast h2
  have c1 : ¬ ((k : ℚ) = 0) := ne_of_gt hk
  have c2 : ¬ ((k : ℚ) < 1 / 1000000) := by
    intro h
    linarith
  have c3 : ¬ ((k : ℚ) < 0) := not_lt.mpr hk.le
  simp only [parseIntNumber, habs, c1, c2, c3, hlt, if_true, if_false, Int.floor_intCast]

/-! ## The store -/

theorem findOne_email (store : Store) (email : String) (user : User)
    (h : findOne store email = some user) : user.email = email := by
  unfold findOne at h
  simpa using List.find?_some h

theorem findOne_save (store : Store) (email : String) (user user1 : User)
    (h : findOne store email = some user) (he : user1.email = email) :
    findOne (save store user1) email = some user1 := by
  induction store with
  | nil => simp [findOne] at h
  | cons u rest ih =>
    by_cases hu : u.email = email
    · simp [save, findOne, hu, he]
    · have h1 : findOne rest email = some user := by
        simpa [findOne, List.find?, hu] using h
      have h2 : ¬ u.email = user1.email := by rw [he]; exact hu
      simpa [save, findOne, List.find?, hu, h2] using ih h1

theorem buyUser_email (price : JsNum) (ticker : String) (units : Units) (user : User) :
    (buyUser price ticker units user).email = user.email := rfl

theorem holding_cases (user : User) (ticker : String) :
    (∀ y ∈ user.portfolio, y.ticker ≠ ticker) ∨
    ∃ pre pos post, user.portfolio = pre ++ pos :: post ∧ pos.ticker = ticker ∧
      ∀ y ∈ pre, y.ticker ≠ ticker := by
  cases h : holding user ticker with
  | none => exact Or.inl ((holding_eq_none user ticker).mp h)
  | some pos =>
    obtain ⟨pre, post, hl, ht, hpre⟩ := holding_split user ticker pos h
    exact Or.inr ⟨pre, pos, post, hl, ht, hpre⟩

/-- A sell that is not rejected, on a portfolio of known shape. -/
theorem sellUser_some (price : JsNum) (ticker : String) (units : Units) (user user1 : User)
    (hs : sellUser price ticker units user = some user1) :
    ∃ pre pos post, user.portfolio = pre ++ pos :: post ∧ pos.ticker = ticker ∧
      (∀ y ∈ pre, y.ticker ≠ ticker) ∧ ¬ ((pos.units : ℚ) < units.toNumber) ∧
      user1 =
        { user with
          portfolio :=
            if pos.units - units.parseInt = 0 then pre ++ post
            else pre ++ { pos with units := pos.units - units.parseInt } :: post,
          balance := user.balance.add (price.mul (.fin units.toNumber)) } := by
  rcases holding_cases user ticker with hn | ⟨pre, pos, post, hl, ht, hpre⟩
  · rw [sellUser_not_held price ticker units user hn] at hs
    simp at hs
  · rw [sellUser_held price ticker units user pre pos post hl ht hpre] at hs
    by_cases hlt : (pos.units : ℚ) < units.toNumber
    · simp [hlt] at hs
    · rw [if_neg hlt] at hs
      simp only [Option.some.injEq] at hs
      exact ⟨pre, pos, post, hl, ht, hpre, hlt, hs.symm⟩

theorem sellUser_email (price : JsNum) (ticker : String) (units : Units) (user user1 : User)
    (h : sellUser price ticker units user = some user1) : user1.email = user.email := by
  obtain ⟨pre, pos, post, -, -, -, -, rfl⟩ := sellUser_some price ticker units user user1 h
  rfl

/-- Buy with numeric units on a held ticker computes the weighted average. -/
theorem buyUser_num_average (P : ℚ) (ticker : String) (n : ℚ) (user : User) (pos : Position)
    (c : ℚ) (h : holding user ticker = some pos) (hc : pos.avgCost = .fin c)
    (hz : (pos.units : ℚ) + n ≠ 0) :
    holding (buyUser (.fin P) ticker (.num n) user) ticker =
      some { ticker := ticker, units := pos.units + parseIntNumber n,
             avgCost := .fin ((pos.units * c + P * n) / (pos.units + n)) } := by
  obtain ⟨pre, post, hl, ht, hpre⟩ := holding_split user ticker pos h
  rw [buyUser_held (.fin P) ticker (.num n) user pre pos post hl ht hpre]
  unfold holding
  simp only []
  rw [find?_append_cons _ _ _ _ (fun y hy => by simpa using hpre y hy) (by simpa using ht)]
  simp [buyAverage, hc, JsNum.mul, JsNum.add, JsNum.div, plusAsNumber, Units.parseInt,
    Units.toNumber, hz, ht]

/-! ## Claims on buy and sell -/

/-- C1, evaluated where it fails: a user with an empty portfolio buys 10 units at `P` and
then 10 more at `P2`, the request bodies carrying `units` as the string "10".  The entry
ends with 20 units, and its average cost is `(10*P + 10*P2) / 1010`: the divisor
`oldUnits + units` is the concatenation "1010", where the claim has 20. -/
theorem buy_twice_string_units (name email password : String) (balance P P2 : ℚ) :
    (applyTrades ⟨name, email, password, .fin balance, []⟩
        [.buy (.fin P) "GOOG" (.str 10), .buy (.fin P2) "GOOG" (.str 10)]).portfolio
      = [{ ticker := "GOOG", units := 20, avgCost := .fin ((10 * P + 10 * P2) / 1010) }] := by
  have hlen : numeralLength 10 = 2 := by decide
  simp [applyTrades, applyTrade, buyUser, buyAssigned, buyAverage, invalidPaths, findIndex,
    Units.parseInt, Units.toNumber, plusAsNumber, hlen, JsNum.mul, JsNum.add, JsNum.sub,
    JsNum.div]
  ring

/-- C2: a Sell for a ticker the user has no Position in, or for more units than the
Position holds, answers 400 "Not enough units to sell" and leaves the store as it was,
so every user's portfolio and balance are unchanged and nothing is persisted. -/
theorem sell_rejected_atomic (prices : Prices) (store : Store) (email ticker : String)
    (units : Units) (user : User) (hu : findOne store email = some user)
    (h : holding user ticker = none ∨
      ∃ pos, holding user ticker = some pos ∧ (pos.units : ℚ) < units.toNumber) :
    sell prices store email ticker units
      = (⟨400, .error "Not enough units to sell"⟩, store) := by
  have hs : sellUser (priceOf prices ticker) ticker units user = none := by
    rcases h with h | ⟨pos, h, hlt⟩
    · exact sellUser_not_held _ _ _ _ ((holding_eq_none user ticker).mp h)
    · obtain ⟨pre, post, hl, ht, hpre⟩ := holding_split user ticker pos h
      rw [sellUser_held _ ticker units user pre pos post hl ht hpre, if_pos hlt]
  simp only [sell, hu, hs]

theorem sell_rejected_atomic_witness :
    sell samplePrices [sampleUser] "ann@x.org" "GOOG" (.num 5)
      = (⟨400, .error "Not enough units to sell"⟩, [sampleUser]) :=
  sell_rejected_atomic samplePrices [sampleUser] "ann@x.org" "GOOG" (.num 5) sampleUser
    (by simp [findOne, sampleUser])
    (Or.inr ⟨⟨"GOOG", 3, .fin 150⟩, by simp [holding, sampleUser],
      by norm_num [Units.toNumber]⟩)

/-- A Buy that makes the average cost of the held Position `NaN` is refused by `save`:
500 with the raw validation text, and nothing is written. -/
theorem buy_nan_average_refused (prices : Prices) (store : Store) (email ticker : String)
    (units : Units) (user : User) (pos : Position) (P b : ℚ)
    (hu : findOne store email = some user) (hp : prices.map ticker = some P)
    (hb : user.balance = .fin b) (hh : holding user ticker = some pos)
    (hav : buyAverage (.fin P) units pos = .nan) :
    buy prices store email ticker units = (⟨500, .raw (.validation ["avgCost"])⟩, store) := by
  obtain ⟨pre, post, hl, ht, hpre⟩ := holding_split user ticker pos hh
  have hprice : priceOf prices ticker = .fin P := by simp [priceOf, hp]
  simp [buy, hu, hprice, buyAssigned_held _ ticker units user pre pos post hl ht hpre, hav,
    invalidPaths, hb, JsNum.mul, JsNum.sub]

/-- C6, as stated, fails: Ann holds 3 units of GOOG at 150 and the feed has GOOG at 150;
a Buy of -3 units makes the new average 0/0, `save` refuses the document, and the
answer is 500 with nothing debited. -/
theorem buy_cancelling_units_refused :
    buy samplePrices [sampleUser] "ann@x.org" "GOOG" (.num (-3))
      = (⟨500, .raw (.validation ["avgCost"])⟩, [sampleUser]) :=
  buy_nan_average_refused samplePrices [sampleUser] "ann@x.org" "GOOG" (.num (-3)) sampleUser
    ⟨"GOOG", 3, .fin 150⟩ 150 9550
    (by simp [findOne, sampleUser]) (by simp [samplePrices, STOCKS]) rfl
    (by simp [holding, sampleUser])
    (by norm_num [buyAverage, JsNum.mul, JsNum.add, JsNum.div, JsNum.signed, plusAsNumber,
      Units.toNumber])

/-- C6, amended: for an existing user with a numeric balance and a ticker of the feed,
whenever the new average cost of a Position already held is not `NaN`, Buy answers 200
with the updated user, persists it, and the new balance is the old balance minus
`currentPrice(ticker) * units`, whatever the old balance is: there is no funds check. -/
theorem buy_debits_unconditionally (prices : Prices) (store : Store) (email ticker : String)
    (units : Units) (user : User) (P b : ℚ)
    (hu : findOne store email = some user) (hp : prices.map ticker = some P)
    (hb : user.balance = .fin b)
    (hav : ∀ pos, holding user ticker = some pos → buyAverage (.fin P) units pos ≠ .nan) :
    ∃ user1, buy prices store email ticker units = (⟨200, .user user1⟩, save store user1) ∧
      user1.balance = .fin (b - P * units.toNumber) ∧
      findOne (save store user1) email = some user1 := by
  have hprice : priceOf prices ticker = .fin P := by simp [priceOf, hp]
  have hok : invalidPaths (buyAssigned (.fin P) ticker units user) = [] := by
    rw [invalidPaths_nil_iff]
    rcases holding_cases user ticker with hn | ⟨pre, pos, post, hl, ht, hpre⟩
    · rw [buyAssigned_new _ ticker units user hn]
      simp [hb, JsNum.mul, JsNum.sub]
    · rw [buyAssigned_held _ ticker units user pre pos post hl ht hpre]
      have hh : holding user ticker = some pos := by
        unfold holding
        rw [hl]
        exact find?_append_cons _ _ _ _ (fun y hy => by simpa using hpre y hy)
          (by simpa using ht)
      have := hav pos hh
      simp [hb, JsNum.mul, JsNum.sub, this]
  refine ⟨buyUser (priceOf prices ticker) ticker units user, ?_, ?_, ?_⟩
  · simp only [buy, hu, hprice, hok]
  · simp [buyUser, hprice, hb, JsNum.mul, JsNum.sub]
  · exact findOne_save store email user _ hu
      ((buyUser_email _ _ _ _).trans (findOne_email store email user hu))

theorem buy_debits_unconditionally_witness :
    ∃ user1, buy samplePrices [⟨"Ann", "ann@x.org", "h", .fin 100, [⟨"GOOG", 3, .fin 150⟩]⟩]
        "ann@x.org" "GOOG" (.num 5)
        = (⟨200, .user user1⟩,
           save [⟨"Ann", "ann@x.org", "h", .fin 100, [⟨"GOOG", 3, .fin 150⟩]⟩] user1) ∧
      user1.balance = .fin (100 - 150 * (Units.num 5).toNumber) ∧
      findOne (save [⟨"Ann", "ann@x.org", "h", .fin 100, [⟨"GOOG", 3, .fin 150⟩]⟩] user1)
        "ann@x.org" = some user1 :=
  buy_debits_unconditionally samplePrices
    [⟨"Ann", "ann@x.org", "h", .fin 100, [⟨"GOOG", 3, .fin 150⟩]⟩]
    "ann@x.org" "GOOG" (.num 5) ⟨"Ann", "ann@x.org", "h", .fin 100, [⟨"GOOG", 3, .fin 150⟩]⟩
    150 100
    (by simp [findOne]) (by simp [samplePrices, STOCKS]) rfl
    (by
      intro pos h
      simp only [holding, List.find?, decide_True, Option.some.injEq] at h
      subst h
      norm_num [buyAverage, JsNum.mul, JsNum.add, JsNum.div, plusAsNumber, Units.toNumber]
      intro h
      cases h)

/-! ## Invariants of a portfolio -/

theorem nodup_buyUser (price : JsNum) (ticker : String) (units : Units) (user : User)
    (h : (tickers user).Nodup) : (tickers (buyUser price ticker units user)).Nodup := by
  rcases holding_cases user ticker with hn | ⟨pre, pos, post, hl, ht, hpre⟩
  · rw [buyUser_new price ticker units user hn]
    unfold tickers at h ⊢
    simp only [List.map_append, List.map_cons, List.map_nil]
    refine List.Nodup.append h (by simp) ?_
    intro t ht1 ht2
    simp only [List.mem_map] at ht1
    obtain ⟨y, hy, rfl⟩ := ht1
    simp only [List.mem_singleton] at ht2
    exact hn y hy ht2
  · rw [buyUser_held price ticker units user pre pos post hl ht hpre]
    unfold tickers at h ⊢
    rw [hl] at h
    simpa using h

theorem nodup_sellUser (price : JsNum) (ticker : String) (units : Units) (user user1 : User)
    (hs : sellUser price ticker units user = some user1)
    (h : (tickers user).Nodup) : (tickers user1).Nodup := by
  obtain ⟨pre, pos, post, hl, -, -, -, rfl⟩ := sellUser_some price ticker units user user1 hs
  unfold tickers at h ⊢
  rw [hl] at h
  by_cases hz : pos.units - units.parseInt = 0
  · simp only [hz, if_true]
    refine h.sublist ?_
    simp
  · simp only [hz, if_false]
    simpa using h

theorem positive_buyUser (price : JsNum) (ticker : String) (units : Units) (user : User)
    (hu : 0 < units.parseInt) (h : ∀ p ∈ user.portfolio, 0 < p.units) :
    ∀ p ∈ (buyUser price ticker units user).portfolio, 0 < p.units := by
  rcases holding_cases user ticker with hn | ⟨pre, pos, post, hl, ht, hpre⟩
  · rw [buyUser_new price ticker units user hn]
    intro p hp
    simp only [List.mem_append, List.mem_singleton] at hp
    rcases hp with hp | rfl
    · exact h p hp
    · exact hu
  · rw [buyUser_held price ticker units user pre pos post hl ht hpre]
    rw [hl] at h
    intro p hp
    simp only [List.mem_append, List.mem_cons] at hp
    rcases hp with hp | rfl | hp
    · exact h p (by simp [hp])
    · have := h pos (by simp)
      simp only
      omega
    · exact h p (by simp [hp])

theorem positive_sellUser (price : JsNum) (ticker : String) (units : Units) (user user1 : User)
    (hs : sellUser price ticker units user = some user1)
    (hr : (units.parseInt : ℚ) ≤ units.toNumber)
    (h : ∀ p ∈ user.portfolio, 0 < p.units) :
    ∀ p ∈ user1.portfolio, 0 < p.units := by
  obtain ⟨pre, pos, post, hl, -, -, hge, rfl⟩ := sellUser_some price ticker units user user1 hs
  rw [hl] at h
  have hle : units.parseInt ≤ pos.units := by
    have : (units.parseInt : ℚ) ≤ (pos.units : ℚ) := le_trans hr (not_lt.mp hge)
    exact_mod_cast this
  by_cases hz : pos.units - units.parseInt = 0
  · simp only [hz, if_true]
    intro p hp
    simp only [List.mem_append] at hp
    rcases hp with hp | hp
    · exact h p (by simp [hp])
    · exact h p (by simp [hp])
  · simp only [hz, if_false]
    intro p hp
    simp only [List.mem_append, List.mem_cons] at hp
    rcases hp with hp | rfl | hp
    · exact h p (by simp [hp])
    · simp only
      omega
    · exact h p (by simp [hp])

theorem nodup_applyTrade (user : User) (t : Trade) (h : (tickers user).Nodup) :
    (tickers (applyTrade user t)).Nodup := by
  cases t with
  | buy price ticker units =>
    simp only [applyTrade]
    split
    · exact nodup_buyUser price ticker units user h
    · exact h
  | sell price ticker units =>
    simp only [applyTrade]
    split
    · exact h
    · rename_i user1 hs
      split
      · exact nodup_sellUser price ticker units user user1 hs h
      · exact h

theorem positive_applyTrade (user : User) (t : Trade)
    (hb : ∀ price ticker units, t = Trade.buy price ticker units → 0 < units.parseInt)
    (hs : ∀ price ticker units, t = Trade.sell price ticker units →
      (units.parseInt : ℚ) ≤ units.toNumber)
    (h : ∀ p ∈ user.portfolio, 0 < p.units) :
    ∀ p ∈ (applyTrade user t).portfolio, 0 < p.units := by
  cases t with
  | buy price ticker units =>
    simp only [applyTrade]
    split
    · exact positive_buyUser price ticker units user (hb price ticker units rfl) h
    · exact h
  | sell price ticker units =>
    simp only [applyTrade]
    split
    · exact h
    · rename_i user1 hsell
      split
      · exact positive_sellUser price ticker units user user1 hsell (hs price ticker units rfl) h
      · exact h

theorem nodup_applyTrades (trades : List Trade) (user : User) (h : (tickers user).Nodup) :
    (tickers (applyTrades user trades)).Nodup := by
  induction trades generalizing user with
  | nil => simpa [applyTrades] using h
  | cons t ts ih =>
    have := ih (applyTrade user t) (nodup_applyTrade user t h)
    simpa [applyTrades] using this

theorem positive_applyTrades (trades : List Trade) (user : User) (hb : BuysPositive trades)
    (hs : SellsWithinRequest trades) (h : ∀ p ∈ user.portfolio, 0 < p.units) :
    ∀ p ∈ (applyTrades user trades).portfolio, 0 < p.units := by
  induction trades generalizing user with
  | nil => simpa [applyTrades] using h
  | cons t ts ih =>
    have h1 := positive_applyTrade user t (hb t (by simp)) (hs t (by simp)) h
    have := ih (applyTrade user t) (fun t1 ht1 => hb t1 (by simp [ht1]))
      (fun t1 ht1 => hs t1 (by simp [ht1])) h1
    simpa [applyTrades] using this

/-! ## Invariants of the store -/

theorem findOne_mem (store : Store) (email : String) (user : User)
    (h : findOne store email = some user) : user ∈ store := by
  unfold findOne at h
  exact List.mem_of_find?_eq_some h

theorem mem_save (store : Store) (user1 u : User) (h : u ∈ save store user1) :
    u = user1 ∨ u ∈ store := by
  induction store with
  | nil => simp [save] at h
  | cons a rest ih =>
    by_cases ha : a.email = user1.email
    · simp only [save, ha, if_true, List.mem_cons] at h
      rcases h with h | h
      · exact Or.inl h
      · exact Or.inr (by simp [h])
    · simp only [save, ha, if_false, List.mem_cons] at h
      rcases h with h | h
      · exact Or.inr (by simp [h])
      · rcases ih h with h | h
        · exact Or.inl h
        · exact Or.inr (by simp [h])

theorem stored_buyUser (prices : Prices) (ticker : String) (units : Units) (user : User)
    (h : Stored user)
    (hok : invalidPaths (buyAssigned (priceOf prices ticker) ticker units user) = []) :
    Stored (buyUser (priceOf prices ticker) ticker units user) := by
  obtain ⟨hn, -, ht⟩ := h
  rw [invalidPaths_nil_iff] at hok
  refine ⟨nodup_buyUser _ _ _ _ hn, ?_, ?_⟩
  · have : ("balance",
        user.balance.sub ((priceOf prices ticker).mul (.fin units.toNumber)))
          ∈ buyAssigned (priceOf prices ticker) ticker units user := by
      simp [buyAssigned]
    exact hok _ this
  · rcases holding_cases user ticker with hnew | ⟨pre, pos, post, hl, hpt, hpre⟩
    · rw [buyAssigned_new _ ticker units user hnew] at hok
      have hprice : priceOf prices ticker ≠ JsNum.nan := hok ("avgCost", priceOf prices ticker) (by simp)
      rw [buyUser_new _ ticker units user hnew]
      intro p hp
      simp only [List.mem_append, List.mem_singleton] at hp
      rcases hp with hp | rfl
      · exact ht p hp
      · exact priceOf_ne_nan prices ticker hprice
    · rw [buyUser_held _ ticker units user pre pos post hl hpt hpre]
      rw [hl] at ht
      intro p hp
      simp only [List.mem_append, List.mem_cons] at hp
      rcases hp with hp | rfl | hp
      · exact ht p (by simp [hp])
      · exact ht pos (by simp)
      · exact ht p (by simp [hp])

theorem stored_sellUser (price : JsNum) (ticker : String) (units : Units) (user user1 : User)
    (h : Stored user) (hs : sellUser price ticker units user = some user1)
    (hok : invalidPaths (sellAssigned price units user) = []) : Stored user1 := by
  obtain ⟨hn, -, ht⟩ := h
  refine ⟨nodup_sellUser _ _ _ _ _ hs hn, ?_, ?_⟩
  · rw [invalidPaths_nil_iff] at hok
    obtain ⟨pre, pos, post, -, -, -, -, rfl⟩ := sellUser_some price ticker units user user1 hs
    exact hok ("balance", user.balance.add (price.mul (.fin units.toNumber)))
      (by simp [sellAssigned])
  · obtain ⟨pre, pos, post, hl, -, -, -, rfl⟩ := sellUser_some price ticker units user user1 hs
    rw [hl] at ht
    by_cases hz : pos.units - units.parseInt = 0
    · simp only [hz, if_true]
      intro p hp
      simp only [List.mem_append] at hp
      rcases hp with hp | hp
      · exact ht p (by simp [hp])
      · exact ht p (by simp [hp])
    · simp only [hz, if_false]
      intro p hp
      simp only [List.mem_append, List.mem_cons] at hp
      rcases hp with hp | rfl | hp
      · exact ht p (by simp [hp])
      · exact ht pos (by simp)
      · exact ht p (by simp [hp])

theorem stored_handle (c : Crypto) (prices : Prices) (store : Store) (req : Request)
    (h : ∀ u ∈ store, Stored u) :
    ∀ u ∈ (handle c prices store req).2, Stored u := by
  cases req with
  | register name email password =>
    simp only [handle, register]
    split
    · exact h
    · split
      · exact h
      · split
        · exact h
        · intro u hu
          simp only [List.mem_append, List.mem_singleton] at hu
          rcases hu with hu | rfl
          · exact h u hu
          · simp [Stored, tickers]
  | login email password =>
    simp only [handle, login]
    split
    · exact h
    · split <;> exact h
  | getUser email =>
    simp only [handle, getUser]
    split <;> exact h
  | buy email ticker units =>
    simp only [handle, buy]
    split
    · exact h
    · rename_i user hu
      split
      · rename_i hok
        intro u hmem
        rcases mem_save _ _ _ hmem with rfl | hmem
        · exact stored_buyUser prices ticker units user (h user (findOne_mem _ _ _ hu)) hok
        · exact h u hmem
      · exact h
  | sell email ticker units =>
    simp only [handle, sell]
    split
    · exact h
    · rename_i user hu
      split
      · exact h
      · rename_i user1 hs
        split
        · rename_i hok
          intro u hmem
          rcases mem_save _ _ _ hmem with rfl | hmem
          · exact stored_sellUser _ _ _ _ _ (h user (findOne_mem _ _ _ hu)) hs hok
          · exact h u hmem
        · exact h

theorem stored_run (c : Crypto) (reqs : List (Prices × Request)) (store : Store)
    (h : ∀ u ∈ store, Stored u) :
    ∀ u ∈ run c store reqs, Stored u := by
  induction reqs generalizing store with
  | nil => simpa [run] using h
  | cons r rs ih =>
    have := ih (handle c r.1 store r.2).2 (stored_handle c r.1 store r.2 h)
    simpa [run] using this

/-- Selling the held units, the `parseInt` of the request being the holding, on a
portfolio with one Position per ticker. -/
theorem sellUser_all (price : JsNum) (ticker : String) (units : Units) (user : User)
    (pos : Position) (hn : (tickers user).Nodup) (hh : holding user ticker = some pos)
    (he : units.toNumber = pos.units) (hr : units.parseInt = pos.units) :
    ∃ user1, sellUser price ticker units user = some user1 ∧
      holding user1 ticker = none ∧ user1.portfolio.length + 1 = user.portfolio.length := by
  obtain ⟨pre, post, hl, ht, hpre⟩ := holding_split user ticker pos hh
  have hlt : ¬ (pos.units : ℚ) < units.toNumber := by rw [he]; exact lt_irrefl _
  have hz : pos.units - units.parseInt = 0 := by omega
  have hs : sellUser price ticker units user =
      some { user with
        portfolio := pre ++ post,
        balance := user.balance.add (price.mul (.fin units.toNumber)) } := by
    rw [sellUser_held price ticker units user pre pos post hl ht hpre, if_neg hlt, if_pos hz]
  refine ⟨_, hs, ?_, ?_⟩
  · rw [holding_eq_none]
    intro y hy
    simp only [List.mem_append] at hy
    rcases hy with hy | hy
    · exact hpre y hy
    · intro hyt
      unfold tickers at hn
      rw [hl] at hn
      simp only [List.map_append, List.map_cons] at hn
      have h2 := (List.nodup_cons.mp (List.Nodup.of_append_right hn)).1
      exact h2 (by rw [ht, ← hyt]; exact List.mem_map_of_mem _ hy)
  · simp [hl]
    omega


theorem leadingSmall_digit (fuel : Nat) (x : ℚ) (h0 : 0 < x) (h10 : x < 10)
    (hf : 1 ≤ x * 10 ^ fuel) :
    1 ≤ leadingSmall (fuel + 1) x ∧ leadingSmall (fuel + 1) x ≤ 9 := by
  induction fuel generalizing x with
  | zero =>
    have h1 : 1 ≤ x := by simpa using hf
    simp only [leadingSmall, h1, if_true]
    constructor
    · exact Int.le_floor.mpr (by exact_mod_cast h1)
    · have : ⌊x⌋ < 10 := Int.floor_lt.mpr (by exact_mod_cast h10)
      omega
  | succ n ih =>
    by_cases h1 : 1 ≤ x
    · simp only [leadingSmall, h1, if_true]
      constructor
      · exact Int.le_floor.mpr (by exact_mod_cast h1)
      · have : ⌊x⌋ < 10 := Int.floor_lt.mpr (by exact_mod_cast h10)
        omega
    · have hx : x < 1 := not_le.mp h1
      have := ih (10 * x) (by linarith) (by linarith) (by
        have : x * 10 ^ (n + 1) = 10 * x * 10 ^ n := by ring
        rw [← this]
        exact hf)
      rw [leadingSmall]
      simpa [h1] using this

/-- The fuel `parseIntNumber` gives `leadingSmall` is enough: below 1e-6 the result is a
digit from 1 to 9. -/
theorem leadingSmall_enough (x : ℚ) (h0 : 0 < x) (h1 : x < 1) :
    1 ≤ leadingSmall ⌈x⁻¹⌉₊ x ∧ leadingSmall ⌈x⁻¹⌉₊ x ≤ 9 := by
  have hinv : 1 < x⁻¹ := one_lt_inv₀ h0 |>.mpr h1
  have hpos : 0 < ⌈x⁻¹⌉₊ := Nat.ceil_pos.mpr (by linarith)
  obtain ⟨f, hf⟩ : ∃ f, ⌈x⁻¹⌉₊ = f + 1 := ⟨⌈x⁻¹⌉₊ - 1, by omega⟩
  rw [hf]
  apply leadingSmall_digit f x h0 (by linarith)
  have hle : x⁻¹ ≤ ((f + 1 : ℕ) : ℚ) := by
    rw [← hf]
    exact Nat.le_ceil _
  have hpow : ((f + 1 : ℕ) : ℚ) ≤ 10 ^ f := by
    have : f + 1 ≤ 10 ^ f := by
      have := Nat.lt_pow_self (show 1 < 10 by norm_num) f
      omega
    exact_mod_cast this
  have : x⁻¹ ≤ 10 ^ f := le_trans hle hpow
  calc (1 : ℚ) = x * x⁻¹ := by field_simp
    _ ≤ x * 10 ^ f := by
      apply mul_le_mul_of_nonneg_left this h0.le

theorem leadingSmall_lt (fuel : Nat) (x : ℚ) (h : x < 1) :
    leadingSmall (fuel + 1) x = leadingSmall fuel (10 * x) := by
  rw [leadingSmall, if_neg (not_le.mpr h)]

theorem leadingSmall_ge (fuel : Nat) (x : ℚ) (h : 1 ≤ x) :
    leadingSmall (fuel + 1) x = ⌊x⌋ := by
  rw [leadingSmall, if_pos h]

/-- Below 1e-6 the text is in exponent form: `parseInt(5e-7)` is 5. -/
theorem parseIntNumber_tiny : parseIntNumber (1 / 2000000) = 5 := by
  have h : ¬ ((1 / 2000000 : ℚ) = 0) := by norm_num
  have h1 : |(1 / 2000000 : ℚ)| = 1 / 2000000 := abs_of_nonneg (by norm_num)
  have hc : ⌈(1 / 2000000 : ℚ)⁻¹⌉₊ = 1999992 + 1 + 1 + 1 + 1 + 1 + 1 + 1 + 1 := by
    have : (1 / 2000000 : ℚ)⁻¹ = ((2000000 : ℕ) : ℚ) := by norm_num
    rw [this, Nat.ceil_natCast]
  have hf : ⌊(5 : ℚ)⌋ = 5 := by rw [Int.floor_eq_iff]; norm_num
  have hs : ∀ f : Nat,
      leadingSmall (f + 1 + 1 + 1 + 1 + 1 + 1 + 1 + 1) (1 / 2000000) = 5 := by
    intro f
    rw [leadingSmall_lt _ _ (by norm_num), leadingSmall_lt _ _ (by norm_num),
      leadingSmall_lt _ _ (by norm_num), leadingSmall_lt _ _ (by norm_num),
      leadingSmall_lt _ _ (by norm_num), leadingSmall_lt _ _ (by norm_num),
      leadingSmall_lt _ _ (by norm_num), leadingSmall_ge _ _ (by norm_num)]
    norm_num [hf]
  simp only [parseIntNumber, h, h1, hc, hs]
  norm_num
/-! ## Values of `parseInt` -/

theorem parseIntNumber_zero : parseIntNumber 0 = 0 := by
  simp [parseIntNumber]

theorem parseIntNumber_three : parseIntNumber 3 = 3 := by
  have := parseIntNumber_intCast 3 (by norm_num) (by norm_num)
  simpa using this

theorem parseIntNumber_bulk :
    parseIntNumber 900000000000000000000 = 900000000000000000000 := by
  have := parseIntNumber_intCast 900000000000000000000 (by norm_num) (by norm_num)
  simpa using this

theorem parseIntNumber_half : parseIntNumber (1 / 2) = 0 := by
  have h1 : |(1 / 2 : ℚ)| = 1 / 2 := abs_of_nonneg (by norm_num)
  have hf : ⌊(1 / 2 : ℚ)⌋ = 0 := by rw [Int.floor_eq_iff]; norm_num
  simp only [parseIntNumber, h1]
  norm_num [hf]

theorem parseIntNumber_five_halves : parseIntNumber (5 / 2) = 2 := by
  have h1 : |(5 / 2 : ℚ)| = 5 / 2 := abs_of_nonneg (by norm_num)
  have hf : ⌊(5 / 2 : ℚ)⌋ = 2 := by rw [Int.floor_eq_iff]; norm_num
  simp only [parseIntNumber, h1]
  norm_num [hf]

/-- From 1e21 on the text is in exponent form: `parseInt(1.8e21)` is 1. -/
theorem parseIntNumber_huge : parseIntNumber 1800000000000000000000 = 1 := by
  have h : ¬ ((1800000000000000000000 : ℚ) = 0) := by norm_num
  have h1 : |(1800000000000000000000 : ℚ)| = 1800000000000000000000 :=
    abs_of_nonneg (by norm_num)
  have hl : leadingDigit 1800000000000000000000 = 1 := by decide
  simp only [parseIntNumber, h, h1, if_false]
  norm_num [hl]

/-! ## Claims on the portfolio -/

/-- C3, as stated, fails: from an empty portfolio one Buy of 0 units leaves a Position
whose units equal 0. -/
theorem buy_zero_units_retained :
    ¬ NoZeroUnits (applyTrades ⟨"Ann", "ann@x.org", "h", .fin 10000, []⟩
        [.buy (.fin 150) "GOOG" (.num 0)]) := by
  intro h
  exact h ⟨"GOOG", 0, .fin 150⟩
    (by simp [applyTrades, applyTrade, buyUser, buyAssigned, invalidPaths, findIndex,
      Units.parseInt, Units.toNumber, parseIntNumber_zero, JsNum.mul, JsNum.sub]) rfl

/-- A Buy of half a unit does the same: `parseInt(0.5)` is 0. -/
theorem buy_half_unit_retained :
    ¬ NoZeroUnits (applyTrades ⟨"Ann", "ann@x.org", "h", .fin 10000, []⟩
        [.buy (.fin 150) "GOOG" (.num (1 / 2))]) := by
  intro h
  have hh : parseIntNumber 2⁻¹ = 0 := by simpa using parseIntNumber_half
  exact h ⟨"GOOG", 0, .fin 150⟩
    (by simp [applyTrades, applyTrade, buyUser, buyAssigned, invalidPaths, findIndex,
      Units.parseInt, Units.toNumber, hh, JsNum.mul, JsNum.sub]) rfl

/-- Why the Sells are restricted: `parseInt(5e-7)` is 5, so a Sell of 5e-7 units takes 5
from a holding of 3, and a Buy of 2 then leaves a Position with units 0. -/
theorem sell_tiny_then_buy_leaves_zero :
    ¬ NoZeroUnits (applyTrades ⟨"Ann", "ann@x.org", "h", .fin 10000, []⟩
        [.buy (.fin 150) "GOOG" (.num 3), .sell (.fin 150) "GOOG" (.num (1 / 2000000)),
         .buy (.fin 151) "GOOG" (.num 2)]) := by
  have hh : parseIntNumber 2000000⁻¹ = 5 := by simpa using parseIntNumber_tiny
  have h2 : parseIntNumber 2 = 2 := by
    have := parseIntNumber_intCast 2 (by norm_num) (by norm_num)
    simpa using this
  have s1 : applyTrade ⟨"Ann", "ann@x.org", "h", .fin 10000, []⟩
      (.buy (.fin 150) "GOOG" (.num 3))
      = ⟨"Ann", "ann@x.org", "h", .fin 9550, [⟨"GOOG", 3, .fin 150⟩]⟩ := by
    simp [applyTrade, buyUser, buyAssigned, invalidPaths, findIndex, Units.parseInt,
      Units.toNumber, parseIntNumber_three, JsNum.mul, JsNum.sub]
    norm_num
  have s2 : applyTrade ⟨"Ann", "ann@x.org", "h", .fin 9550, [⟨"GOOG", 3, .fin 150⟩]⟩
      (.sell (.fin 150) "GOOG" (.num (1 / 2000000)))
      = ⟨"Ann", "ann@x.org", "h", .fin (9550 + 150 / 2000000), [⟨"GOOG", -2, .fin 150⟩]⟩ := by
    simp [applyTrade, sellUser, sellAssigned, invalidPaths, findIndex, Units.parseInt,
      Units.toNumber, hh, JsNum.mul, JsNum.add]
    norm_num
  have s3 : (applyTrade ⟨"Ann", "ann@x.org", "h", .fin (9550 + 150 / 2000000),
        [⟨"GOOG", -2, .fin 150⟩]⟩ (.buy (.fin 151) "GOOG" (.num 2))).portfolio
      = [⟨"GOOG", 0, .posInf⟩] := by
    have hav : buyAverage (.fin 151) (.num 2) ⟨"GOOG", -2, .fin 150⟩ = .posInf := by
      norm_num [buyAverage, JsNum.mul, JsNum.add, JsNum.div, JsNum.signed, plusAsNumber,
        Units.toNumber]
    simp [applyTrade, buyUser, buyAssigned, invalidPaths, findIndex, hav, Units.parseInt,
      Units.toNumber, h2, JsNum.mul, JsNum.sub]
  intro h
  refine h ⟨"GOOG", 0, .posInf⟩ ?_ rfl
  simp only [applyTrades, List.foldl, s1, s2, s3, List.mem_singleton]

/-- C3, amended: in every stored user state reached from an empty portfolio by any
sequence of Buy and Sell requests (any ticker, any price read from the feed, units any
number or decimal numeral string) the portfolio has at most one Position per ticker; and
when every Buy of the sequence carries units whose `parseInt` is positive and every Sell
carries units whose `parseInt` does not exceed them, it has no Position whose units
equal 0. -/
theorem position_invariant (user : User) (trades : List Trade) (h0 : user.portfolio = []) :
    OnePerTicker (applyTrades user trades) ∧
    (BuysPositive trades → SellsWithinRequest trades →
      NoZeroUnits (applyTrades user trades)) := by
  constructor
  · exact nodup_applyTrades trades user (by simp [tickers, h0])
  · intro hb hs p hp
    have := positive_applyTrades trades user hb hs (by simp [h0]) p hp
    omega

theorem position_invariant_witness :
    OnePerTicker (applyTrades ⟨"Ann", "ann@x.org", "h", .fin 10000, []⟩
      [.buy (.fin 150) "GOOG" (.num 3), .sell (.fin 151) "GOOG" (.num (5 / 2))]) ∧
    NoZeroUnits (applyTrades ⟨"Ann", "ann@x.org", "h", .fin 10000, []⟩
      [.buy (.fin 150) "GOOG" (.num 3), .sell (.fin 151) "GOOG" (.num (5 / 2))]) :=
  ⟨(position_invariant ⟨"Ann", "ann@x.org", "h", .fin 10000, []⟩
      [.buy (.fin 150) "GOOG" (.num 3), .sell (.fin 151) "GOOG" (.num (5 / 2))] rfl).1,
   (position_invariant ⟨"Ann", "ann@x.org", "h", .fin 10000, []⟩
      [.buy (.fin 150) "GOOG" (.num 3), .sell (.fin 151) "GOOG" (.num (5 / 2))] rfl).2
      (by
        intro t ht price ticker units he
        subst he
        simp at ht
        obtain ⟨-, -, rfl⟩ := ht
        simp [Units.parseInt, parseIntNumber_three])
      (by
        intro t ht price ticker units he
        subst he
        simp at ht
        obtain ⟨-, -, rfl⟩ := ht
        norm_num [Units.parseInt, Units.toNumber, parseIntNumber_five_halves])⟩

theorem run_sampleRequests : run sampleCrypto [] sampleRequests = [sampleUser] := by
  simp [run, handle, register, buy, findOne, sampleCrypto, sampleRequests, samplePrices,
    sampleUser, save, buyUser, buyAssigned, invalidPaths, findIndex, priceOf, STOCKS,
    JsNum.mul, JsNum.sub, Units.toNumber, Units.parseInt, parseIntNumber_three]
  norm_num

theorem run_bulkRequests : run sampleCrypto [] bulkRequests = [bulkUser] := by
  simp [run, handle, register, buy, findOne, sampleCrypto, bulkRequests, samplePrices,
    bulkUser, save, buyUser, buyAssigned, buyAverage, invalidPaths, findIndex, priceOf, STOCKS,
    JsNum.mul, JsNum.sub, JsNum.add, JsNum.div, plusAsNumber, Units.toNumber, Units.parseInt,
    parseIntNumber_bulk]
  norm_num

/-- C5, as stated, fails: Ann, who bought 9e20 units of GOOG twice, holds 1.8e21 units;
a Sell of exactly 1.8e21 units, sent as a number, answers 200 and the Position stays,
the portfolio as long as before: `parseInt(1.8e21)` is 1. -/
theorem sell_all_of_huge_holding_stays :
    findOne (run sampleCrypto [] bulkRequests) "ann@x.org" = some bulkUser ∧
    holding bulkUser "GOOG" = some ⟨"GOOG", 1800000000000000000000, .fin 150⟩ ∧
    (Units.num 1800000000000000000000).toNumber = ((1800000000000000000000 : Int) : ℚ) ∧
    ∃ user1, sell samplePrices (run sampleCrypto [] bulkRequests) "ann@x.org" "GOOG"
        (.num 1800000000000000000000)
        = (⟨200, .user user1⟩, save (run sampleCrypto [] bulkRequests) user1) ∧
      (holding user1 "GOOG").isSome = true ∧
      user1.portfolio.length = bulkUser.portfolio.length := by
  rw [run_bulkRequests]
  refine ⟨by simp [findOne, bulkUser], by simp [holding, bulkUser],
    by norm_num [Units.toNumber], ?_⟩
  refine ⟨⟨"Ann", "ann@x.org", "hashed", .fin 10000,
    [⟨"GOOG", 1799999999999999999999, .fin 150⟩]⟩, ?_, ?_, ?_⟩
  · simp [sell, findOne, bulkUser, sellUser, sellAssigned, invalidPaths, findIndex, priceOf,
      samplePrices, STOCKS, save, JsNum.mul, JsNum.add, Units.toNumber, Units.parseInt,
      parseIntNumber_huge]
    norm_num
  · simp [holding]
  · simp [bulkUser]

/-- C5, amended: in every store reached from the empty store through the endpoints, for
a user holding a Position of n > 0 units in a ticker, Sell of exactly n units whose
`parseInt` is n too (every decimal numeral string, every number below 1e21) answers 200
with the updated user and persists it; the resulting portfolio has no Position for that
ticker and is one entry shorter. -/
theorem sell_all_removes (c : Crypto) (reqs : List (Prices × Request)) (prices : Prices)
    (email ticker : String) (units : Units) (user : User) (pos : Position)
    (hu : findOne (run c [] reqs) email = some user)
    (hh : holding user ticker = some pos) (hpos : 0 < pos.units)
    (he : units.toNumber = pos.units) (hr : units.parseInt = pos.units) :
    ∃ user1, sell prices (run c [] reqs) email ticker units
        = (⟨200, .user user1⟩, save (run c [] reqs) user1) ∧
      findOne (save (run c [] reqs) user1) email = some user1 ∧
      holding user1 ticker = none ∧
      user1.portfolio.length + 1 = user.portfolio.length := by
  have _ := hpos
  obtain ⟨hn, hbal, htick⟩ : Stored user :=
    stored_run c reqs [] (by simp) user (findOne_mem _ _ _ hu)
  obtain ⟨pre, post, hl, -, -⟩ := holding_split user ticker pos hh
  have hmem : ticker ∈ STOCKS := by
    have := htick pos (by rw [hl]; simp)
    obtain ⟨-, -, -, ht, -⟩ := holding_split user ticker pos hh
    rwa [ht] at this
  obtain ⟨P, -, hprice⟩ := priceOf_mem prices ticker hmem
  obtain ⟨user1, hs, hnone, hlen⟩ :=
    sellUser_all (priceOf prices ticker) ticker units user pos hn hh he hr
  have hok : invalidPaths (sellAssigned (priceOf prices ticker) units user) = [] := by
    rw [invalidPaths_nil_iff]
    intro a ha
    simp only [sellAssigned, List.mem_singleton] at ha
    subst ha
    simp only [hprice, JsNum.mul]
    exact add_fin_ne_nan _ _ hbal
  refine ⟨user1, ?_, ?_, hnone, hlen⟩
  · simp only [sell, hu, hs, hok]
  · exact findOne_save _ email user user1 hu
      ((sellUser_email _ _ _ _ _ hs).trans (findOne_email _ email user hu))

theorem sell_all_removes_witness :
    ∃ user1, sell samplePrices (run sampleCrypto [] sampleRequests) "ann@x.org" "GOOG" (.num 3)
        = (⟨200, .user user1⟩, save (run sampleCrypto [] sampleRequests) user1) ∧
      findOne (save (run sampleCrypto [] sampleRequests) user1) "ann@x.org" = some user1 ∧
      holding user1 "GOOG" = none ∧
      user1.portfolio.length + 1 = sampleUser.portfolio.length :=
  sell_all_removes sampleCrypto sampleRequests samplePrices "ann@x.org" "GOOG" (.num 3)
    sampleUser ⟨"GOOG", 3, .fin 150⟩
    (by rw [run_sampleRequests]; simp [findOne, sampleUser])
    (by simp [holding, sampleUser]) (by decide) (by simp [Units.toNumber])
    (by simp [Units.parseInt, parseIntNumber_three])

/-- C7, as stated, fails: Ann holds 3 units of GOOG and sells 2.5 with the feed at 150.
The answer is 200; the Position drops by 2, to 1 unit, while the balance grows by
2.5 * 150 = 375. -/
theorem sell_fractional_units :
    sell samplePrices [sampleUser] "ann@x.org" "GOOG" (.num (5 / 2))
      = (⟨200, .user ⟨"Ann", "ann@x.org", "hashed", .fin 9925, [⟨"GOOG", 1, .fin 150⟩]⟩⟩,
         [⟨"Ann", "ann@x.org", "hashed", .fin 9925, [⟨"GOOG", 1, .fin 150⟩]⟩]) := by
  simp [sell, findOne, sampleUser, sellUser, sellAssigned, invalidPaths, findIndex, priceOf,
    samplePrices, STOCKS, save, JsNum.mul, JsNum.add, Units.toNumber, Units.parseInt,
    parseIntNumber_five_halves]
  norm_num

/-- C7, amended: for a user with a numeric balance holding a Position of at least the
requested units, in a ticker of the feed, the requested units being an integer that
`parseInt` reads back unchanged, Sell answers 200 with the updated user and persists it;
the balance grows by `currentPrice(ticker) * units`; the Position found is removed when
its units reach zero and otherwise keeps its place, ticker and avgCost with units lowered
by the request. -/
theorem sell_success (prices : Prices) (store : Store) (email ticker : String)
    (units : Units) (user : User) (pos : Position) (P b : ℚ) (n : Int)
    (hu : findOne store email = some user) (hh : holding user ticker = some pos)
    (hn : units.toNumber = n) (hparse : units.parseInt = n)
    (hge : n ≤ pos.units) (hp : prices.map ticker = some P)
    (hb : user.balance = .fin b) :
    ∃ user1 pre post,
      sell prices store email ticker units = (⟨200, .user user1⟩, save store user1) ∧
      findOne (save store user1) email = some user1 ∧
      user1.balance = .fin (b + P * n) ∧
      user.portfolio = pre ++ pos :: post ∧ (∀ y ∈ pre, y.ticker ≠ ticker) ∧
      user1.portfolio =
        if pos.units - n = 0 then pre ++ post
        else pre ++ { pos with units := pos.units - n } :: post := by
  obtain ⟨pre, post, hl, ht, hpre⟩ := holding_split user ticker pos hh
  have hlt : ¬ (pos.units : ℚ) < units.toNumber := by
    rw [hn, not_lt]
    exact_mod_cast hge
  have hprice : priceOf prices ticker = .fin P := by simp [priceOf, hp]
  have hs := sellUser_held (priceOf prices ticker) ticker units user pre pos post hl ht hpre
  rw [if_neg hlt] at hs
  have hok : invalidPaths (sellAssigned (priceOf prices ticker) units user) = [] := by
    simp [invalidPaths, sellAssigned, hprice, hb, JsNum.mul, JsNum.add]
  refine ⟨{ user with
      balance := user.balance.add ((priceOf prices ticker).mul (.fin units.toNumber)),
      portfolio :=
        if pos.units - units.parseInt = 0 then pre ++ post
        else pre ++ { pos with units := pos.units - units.parseInt } :: post },
    pre, post, ?_, ?_, ?_, hl, hpre, ?_⟩
  · simp only [sell, hu, hs, hok]
  · exact findOne_save _ email user _ hu
      ((sellUser_email _ _ _ _ _ hs).trans (findOne_email _ email user hu))
  · simp [hprice, hb, hn, JsNum.mul, JsNum.add]
  · simp only [hparse]

theorem sell_success_witness :
    ∃ user1 pre post,
      sell samplePrices [sampleUser] "ann@x.org" "GOOG" (.str 2)
        = (⟨200, .user user1⟩, save [sampleUser] user1) ∧
      findOne (save [sampleUser] user1) "ann@x.org" = some user1 ∧
      user1.balance = .fin (9550 + 150 * (2 : Int)) ∧
      sampleUser.portfolio = pre ++ ⟨"GOOG", 3, .fin 150⟩ :: post ∧
      (∀ y ∈ pre, y.ticker ≠ "GOOG") ∧
      user1.portfolio =
        if (3 : Int) - 2 = 0 then pre ++ post
        else pre ++ ⟨"GOOG", 3 - 2, .fin 150⟩ :: post :=
  sell_success samplePrices [sampleUser] "ann@x.org" "GOOG" (.str 2) sampleUser
    ⟨"GOOG", 3, .fin 150⟩ 150 9550 2
    (by simp [findOne, sampleUser]) (by simp [holding, sampleUser])
    (by simp [Units.toNumber]) (by simp [Units.parseInt]) (by decide)
    (by simp [samplePrices, STOCKS]) rfl

theorem buyUser_frame (price : JsNum) (ticker : String) (units : Units) (user : User) :
    (buyUser price ticker units user).portfolio.filter (fun p => decide (p.ticker ≠ ticker))
      = user.portfolio.filter (fun p => decide (p.ticker ≠ ticker)) := by
  rcases holding_cases user ticker with hn | ⟨pre, pos, post, hl, ht, hpre⟩
  · rw [buyUser_new _ ticker units user hn]
    simp
  · rw [buyUser_held _ ticker units user pre pos post hl ht hpre, hl]
    simp [ht]

theorem sellUser_frame (price : JsNum) (ticker : String) (units : Units) (user user1 : User)
    (hs : sellUser price ticker units user = some user1) :
    user1.portfolio.filter (fun p => decide (p.ticker ≠ ticker))
        = user.portfolio.filter (fun p => decide (p.ticker ≠ ticker)) ∧
      user1.name = user.name ∧ user1.password = user.password := by
  obtain ⟨pre, pos, post, hl, ht, -, -, rfl⟩ := sellUser_some price ticker units user user1 hs
  refine ⟨?_, rfl, rfl⟩
  rw [hl]
  by_cases hz : pos.units - units.parseInt = 0
  · simp [hz, ht]
  · simp [hz, ht]

/-- C10: a successful Buy or Sell on ticker T leaves the Positions of every other ticker
as they were, in the same order, and leaves the name, email and password of the user
unchanged. -/
theorem trade_frame (prices : Prices) (store : Store) (email ticker : String)
    (units : Units) (user user1 : User) (hu : findOne store email = some user)
    (h : (buy prices store email ticker units).1 = ⟨200, .user user1⟩ ∨
      (sell prices store email ticker units).1 = ⟨200, .user user1⟩) :
    user1.portfolio.filter (fun p => decide (p.ticker ≠ ticker))
        = user.portfolio.filter (fun p => decide (p.ticker ≠ ticker)) ∧
      user1.name = user.name ∧ user1.email = user.email ∧
      user1.password = user.password := by
  rcases h with h | h
  · simp only [buy, hu] at h
    split at h
    · simp only [Response.mk.injEq, Body.user.injEq, true_and] at h
      subst h
      exact ⟨buyUser_frame _ _ _ _, rfl, rfl, rfl⟩
    · simp at h
  · simp only [sell, hu] at h
    cases hs : sellUser (priceOf prices ticker) ticker units user with
    | none =>
      rw [hs] at h
      simp at h
    | some u1 =>
      rw [hs] at h
      simp only at h
      split at h
      · simp only [Response.mk.injEq, Body.user.injEq, true_and] at h
        subst h
        obtain ⟨hf, hname, hpw⟩ := sellUser_frame _ _ _ _ _ hs
        exact ⟨hf, hname, sellUser_email _ _ _ _ _ hs, hpw⟩
      · simp at h

theorem trade_frame_witness :
    (buyUser (.fin 150) "TSLA" (.num 1) sampleUser).portfolio.filter
        (fun p => decide (p.ticker ≠ "TSLA"))
        = sampleUser.portfolio.filter (fun p => decide (p.ticker ≠ "TSLA")) ∧
      (buyUser (.fin 150) "TSLA" (.num 1) sampleUser).name = sampleUser.name ∧
      (buyUser (.fin 150) "TSLA" (.num 1) sampleUser).email = sampleUser.email ∧
      (buyUser (.fin 150) "TSLA" (.num 1) sampleUser).password = sampleUser.password :=
  trade_frame samplePrices [sampleUser] "ann@x.org" "TSLA" (.num 1) sampleUser
    (buyUser (.fin 150) "TSLA" (.num 1) sampleUser)
    (by simp [findOne, sampleUser])
    (Or.inl (by
      simp [buy, findOne, sampleUser, priceOf, samplePrices, STOCKS, buyAssigned, invalidPaths,
        findIndex, JsNum.mul, JsNum.sub, Units.toNumber]))

/-! ## Price feed -/

theorem toFixed2_ge_ten (x : ℚ) (h : 10 ≤ x) : 10 ≤ toFixed2 x := by
  have hx : ¬ x < 0 := by linarith
  have hfl : (1000 : Int) ≤ ⌊x * 100 + 1 / 2⌋ := by
    apply Int.le_floor.mpr
    push_cast
    linarith
  have hq : (1000 : ℚ) ≤ ((⌊x * 100 + 1 / 2⌋ : Int) : ℚ) := by exact_mod_cast hfl
  simp only [toFixed2, hx, if_false]
  linarith

theorem toFixed2_bounds (x : ℚ) (h1 : 100 ≤ x) (h2 : x < 600) :
    100 ≤ toFixed2 x ∧ toFixed2 x ≤ 600 := by
  have hx : ¬ x < 0 := by linarith
  have hfl : (10000 : Int) ≤ ⌊x * 100 + 1 / 2⌋ := by
    apply Int.le_floor.mpr
    push_cast
    linarith
  have hfu : ⌊x * 100 + 1 / 2⌋ < (60001 : Int) := by
    apply Int.floor_lt.mpr
    push_cast
    linarith
  have hq1 : (10000 : ℚ) ≤ ((⌊x * 100 + 1 / 2⌋ : Int) : ℚ) := by exact_mod_cast hfl
  have hq2 : ((⌊x * 100 + 1 / 2⌋ : Int) : ℚ) ≤ (60000 : ℚ) := by
    have : ⌊x * 100 + 1 / 2⌋ ≤ (60000 : Int) := by omega
    exact_mod_cast this
  simp only [toFixed2, hx, if_false]
  constructor <;> linarith

theorem stepPrice_ge_ten (r old : ℚ) : 10 ≤ stepPrice r old := by
  unfold stepPrice
  apply toFixed2_ge_ten
  split
  · exact le_refl _
  · linarith

theorem tick_floor (draw : String → ℚ) (prices : PriceMap)
    (h : ∀ s p, prices s = some p → 10 ≤ p) :
    ∀ s p, tick draw prices s = some p → 10 ≤ p := by
  intro s p hp
  unfold tick at hp
  split at hp
  · cases hq : prices s with
    | none => simp [hq] at hp
    | some q =>
      simp only [hq, Option.map_some', Option.some.injEq] at hp
      rw [← hp]
      exact stepPrice_ge_ten _ _
  · exact h s p hp

theorem tick_isSome (draw : String → ℚ) (prices : PriceMap) (s : String) :
    (tick draw prices s).isSome = (prices s).isSome := by
  unfold tick
  split
  · cases prices s <;> rfl
  · rfl

theorem ticks_floor (draws : List (String → ℚ)) (prices : PriceMap)
    (h : ∀ s p, prices s = some p → 10 ≤ p) :
    ∀ s p, ticks prices draws s = some p → 10 ≤ p := by
  induction draws generalizing prices with
  | nil => simpa [ticks] using h
  | cons d ds ih =>
    have := ih (tick d prices) (tick_floor d prices h)
    simpa [ticks] using this

theorem ticks_isSome (draws : List (String → ℚ)) (prices : PriceMap) (s : String) :
    (ticks prices draws s).isSome = (prices s).isSome := by
  induction draws generalizing prices with
  | nil => rfl
  | cons d ds ih =>
    have := ih (tick d prices)
    rw [tick_isSome] at this
    simpa [ticks] using this

/-- The feed has the tickers of `STOCKS` and no other, at start-up and after any rounds. -/
theorem ticks_keys (draw0 : String → ℚ) (draws : List (String → ℚ)) (s : String) :
    (ticks (initPrices draw0) draws s).isSome = true ↔ s ∈ STOCKS := by
  rw [ticks_isSome]
  by_cases h : s ∈ STOCKS <;> simp [initPrices, h]

/-- The stored initial price is the `toFixed(2)` value of the seed, which can be 600.00. -/
theorem initial_price_can_be_600 : toFixed2 (seed (99999 / 100000)) = 600 := by
  have h : ⌊(60000 : ℚ)⌋ = 60000 := by
    rw [Int.floor_eq_iff]
    norm_num
  norm_num [toFixed2, seed, h]

/-- C4: with every initial draw of `Math.random()` in [0,1), each seed lies in [100,600),
and after any number of rounds, whatever the draws of the rounds (so for every sequence of
deltas, all negative ones included), every ticker of the list has a price and every price
of the feed is at least 10. -/
theorem price_floor (draw0 : String → ℚ) (draws : List (String → ℚ))
    (h0 : ∀ s, 0 ≤ draw0 s ∧ draw0 s < 1) :
    (∀ s, 100 ≤ seed (draw0 s) ∧ seed (draw0 s) < 600) ∧
    (∀ s ∈ STOCKS, (ticks (initPrices draw0) draws s).isSome = true) ∧
    (∀ s p, ticks (initPrices draw0) draws s = some p → 10 ≤ p) := by
  have hseed : ∀ s, 100 ≤ seed (draw0 s) ∧ seed (draw0 s) < 600 := by
    intro s
    have := h0 s
    unfold seed
    constructor <;> linarith [this.1, this.2]
  refine ⟨hseed, ?_, ?_⟩
  · intro s hs
    rw [ticks_isSome]
    simp [initPrices, hs]
  · apply ticks_floor
    intro s p hp
    unfold initPrices at hp
    split at hp
    · simp only [Option.some.injEq] at hp
      rw [← hp]
      have := (toFixed2_bounds _ (hseed s).1 (hseed s).2).1
      linarith
    · simp at hp

theorem price_floor_witness :
    (∀ s, 100 ≤ seed (sampleDraw s) ∧ seed (sampleDraw s) < 600) ∧
    (∀ s ∈ STOCKS,
      (ticks (initPrices sampleDraw) [fallingDraw, fallingDraw] s).isSome = true) ∧
    (∀ s p, ticks (initPrices sampleDraw) [fallingDraw, fallingDraw] s = some p → 10 ≤ p) :=
  price_floor sampleDraw [fallingDraw, fallingDraw] (fun _ => by norm_num [sampleDraw])

/-! ## Request layer -/

/-- C8, evaluated where it fails: on a store with no record at all, `/buy` and `/sell`
answer 500 with the raw text of the exception thrown by `user.portfolio`, where
`/login` answers 400 "User not found". -/
theorem unknown_user_buy_sell_500 (c : Crypto) (prices : Prices) (email ticker password : String)
    (units : Units) :
    buy prices [] email ticker units = (⟨500, .raw (.nullProperty "portfolio")⟩, []) ∧
    sell prices [] email ticker units = (⟨500, .raw (.nullProperty "portfolio")⟩, []) ∧
    login c [] email password = (⟨400, .error "User not found"⟩, []) := by
  simp [buy, sell, login, findOne]

/-! ## Registration -/

theorem emails_save (store : Store) (user1 : User) :
    emails (save store user1) = emails store := by
  induction store with
  | nil => rfl
  | cons u rest ih =>
    unfold emails at ih ⊢
    by_cases hu : u.email = user1.email
    · simp [save, hu]
    · simp [save, hu, ih]

theorem findOne_isSome (store : Store) (email : String) :
    (findOne store email).isSome = true ↔ email ∈ emails store := by
  unfold findOne emails
  rw [List.find?_isSome]
  simp only [List.mem_map, decide_eq_true_eq]

theorem findOne_eq_none (store : Store) (email : String) :
    findOne store email = none ↔ email ∉ emails store := by
  rw [← findOne_isSome]
  cases findOne store email <;> simp

/-- One request leaves the list of emails as it is, or appends one that was not there. -/
theorem emails_handle (c : Crypto) (prices : Prices) (store : Store) (req : Request) :
    emails (handle c prices store req).2 = emails store ∨
    ∃ e, e ∉ emails store ∧ emails (handle c prices store req).2 = emails store ++ [e] := by
  cases req with
  | register name email password =>
    simp only [handle, register]
    split
    · exact Or.inl rfl
    · rename_i hnone
      split
      · exact Or.inl rfl
      · split
        · exact Or.inl rfl
        · exact Or.inr ⟨email, (findOne_eq_none store email).mp hnone, by simp [emails]⟩
  | login email password =>
    simp only [handle, login]
    split
    · exact Or.inl rfl
    · split <;> exact Or.inl rfl
  | getUser email =>
    simp only [handle, getUser]
    split <;> exact Or.inl rfl
  | buy email ticker units =>
    simp only [handle, buy]
    split
    · exact Or.inl rfl
    · split
      · exact Or.inl (emails_save _ _)
      · exact Or.inl rfl
  | sell email ticker units =>
    simp only [handle, sell]
    split
    · exact Or.inl rfl
    · split
      · exact Or.inl rfl
      · split
        · exact Or.inl (emails_save _ _)
        · exact Or.inl rfl

theorem emails_run_count (c : Crypto) (reqs : List (Prices × Request)) (store : Store)
    (email : String) (h : email ∈ emails store) :
    email ∈ emails (run c store reqs) ∧
      (emails (run c store reqs)).count email = (emails store).count email := by
  induction reqs generalizing store with
  | nil => exact ⟨h, rfl⟩
  | cons r rs ih =>
    have hstep : email ∈ emails (handle c r.1 store r.2).2 ∧
        (emails (handle c r.1 store r.2).2).count email = (emails store).count email := by
      rcases emails_handle c r.1 store r.2 with he | ⟨e, hne, he⟩
      · rw [he]
        exact ⟨h, rfl⟩
      · rw [he]
        have hee : e ≠ email := fun hh => hne (hh ▸ h)
        refine ⟨by simp [h], ?_⟩
        rw [List.count_append, List.count_singleton]
        simp [hee]
    have := ih (handle c r.1 store r.2).2 hstep.1
    rw [hstep.2] at this
    simpa [run] using this

theorem emails_run_nodup (c : Crypto) (reqs : List (Prices × Request)) (store : Store)
    (h : (emails store).Nodup) : (emails (run c store reqs)).Nodup := by
  induction reqs generalizing store with
  | nil => exact h
  | cons r rs ih =>
    have hstep : (emails (handle c r.1 store r.2).2).Nodup := by
      rcases emails_handle c r.1 store r.2 with he | ⟨e, hne, he⟩
      · rw [he]
        exact h
      · rw [he]
        refine List.Nodup.append h (by simp) ?_
        intro x hx1 hx2
        simp only [List.mem_singleton] at hx2
        exact hne (hx2 ▸ hx1)
    have := ih (handle c r.1 store r.2).2 hstep
    simpa [run] using this

/-- A successful registration found no document and appended the new one. -/
theorem register_ok (c : Crypto) (store : Store) (name email password : String)
    (h : (register c store name email password).1.status = 200) :
    findOne store email = none ∧
    (register c store name email password).2
      = store ++ [⟨name, email, c.hash password, .fin 10000, []⟩] := by
  cases hf : findOne store email with
  | some u => simp [register, hf] at h
  | none =>
    refine ⟨rfl, ?_⟩
    simp only [register, hf] at h ⊢
    by_cases h1 : email = ""
    · simp [h1] at h
    · by_cases h2 : c.hash password = ""
      · simp [h1, h2] at h
      · simp [h1, h2]

theorem findOne_append_new (store : Store) (user : User)
    (h : findOne store user.email = none) :
    findOne (store ++ [user]) user.email = some user := by
  unfold findOne at h ⊢
  rw [List.find?_append, h]
  simp

/-- C9: once a Register with an email has succeeded, the new document has balance 10000
and an empty portfolio, and after any further requests every Register with that email
(any name, any password) answers 400 "User already exists" and leaves the store as it
is; the store holds exactly one document with that email, and a store whose emails were
pairwise distinct keeps them so. -/
theorem register_duplicate_rejected (c : Crypto) (store : Store) (name email password : String)
    (reqs : List (Prices × Request)) (name2 password2 : String)
    (h : (register c store name email password).1.status = 200) :
    findOne (register c store name email password).2 email
      = some ⟨name, email, c.hash password, .fin 10000, []⟩ ∧
    register c (run c (register c store name email password).2 reqs) name2 email password2
      = (⟨400, .error "User already exists"⟩,
         run c (register c store name email password).2 reqs) ∧
    (emails (run c (register c store name email password).2 reqs)).count email = 1 ∧
    ((emails store).Nodup →
      (emails (run c (register c store name email password).2 reqs)).Nodup) := by
  obtain ⟨hnone, hstore⟩ := register_ok c store name email password h
  have hnot : email ∉ emails store := (findOne_eq_none store email).mp hnone
  have hmem : email ∈ emails (store ++ [⟨name, email, c.hash password, .fin 10000, []⟩]) := by
    simp [emails]
  have hcount : (emails (store ++ [⟨name, email, c.hash password, .fin 10000, []⟩])).count email
      = 1 := by
    have h0 : (List.map User.email store).count email = 0 := List.count_eq_zero.mpr hnot
    simp [emails, List.count_append, h0]
  rw [hstore]
  obtain ⟨hin, hc⟩ := emails_run_count c reqs _ email hmem
  refine ⟨findOne_append_new store ⟨name, email, c.hash password, .fin 10000, []⟩ hnone,
    ?_, by rw [hc, hcount], ?_⟩
  · have hsome := (findOne_isSome _ email).mpr hin
    unfold register
    cases hf : findOne (run c (store ++ [⟨name, email, c.hash password, .fin 10000, []⟩]) reqs)
        email with
    | none => simp [hf] at hsome
    | some u => rfl
  · intro hnd
    apply emails_run_nodup
    unfold emails at hnd hnot ⊢
    simp only [List.map_append, List.map_cons, List.map_nil]
    refine List.Nodup.append hnd (by simp) ?_
    intro x hx1 hx2
    simp only [List.mem_singleton] at hx2
    exact hnot (hx2 ▸ hx1)

theorem register_duplicate_rejected_witness :
    findOne (register sampleCrypto [] "Ann" "ann@x.org" "pw").2 "ann@x.org"
      = some ⟨"Ann", "ann@x.org", sampleCrypto.hash "pw", .fin 10000, []⟩ ∧
    register sampleCrypto
        (run sampleCrypto (register sampleCrypto [] "Ann" "ann@x.org" "pw").2
          [(samplePrices, .buy "ann@x.org" "GOOG" (.num 3))]) "Bob" "ann@x.org" "other"
      = (⟨400, .error "User already exists"⟩,
         run sampleCrypto (register sampleCrypto [] "Ann" "ann@x.org" "pw").2
          [(samplePrices, .buy "ann@x.org" "GOOG" (.num 3))]) ∧
    (emails (run sampleCrypto (register sampleCrypto [] "Ann" "ann@x.org" "pw").2
      [(samplePrices, .buy "ann@x.org" "GOOG" (.num 3))])).count "ann@x.org" = 1 ∧
    ((emails []).Nodup →
      (emails (run sampleCrypto (register sampleCrypto [] "Ann" "ann@x.org" "pw").2
        [(samplePrices, .buy "ann@x.org" "GOOG" (.num 3))])).Nodup) :=
  register_duplicate_rejected sampleCrypto [] "Ann" "ann@x.org" "pw"
    [(samplePrices, .buy "ann@x.org" "GOOG" (.num 3))] "Bob" "other"
    (by simp [register, findOne, sampleCrypto])

end StockBackend
